import Mathlib

/-!
Verification of the pinflow workflow engine (src/index.ts).

The engine exposes an abstract `Node` class (three-phase prep → exec → post
contract, an edge table, retry configuration), a retry wrapper
`executeWithRetry`, and a driver `run` that executes one cycle of a node
(streaming fan-out of exec pipelines, join barrier, post aggregation) and then
routes to the next node through the edge table.

Shallow embedding choices, all derived from the TypeScript source:

* A node's `prep` async generator is modelled as a finite list of items
  (`prep : σ → List α`); the generator's asynchronous pulls only affect the
  interleaving, which is captured by the schedule below.
* `exec` may read the store and may fail; its behaviour can differ between
  retry attempts, so it is modelled as `σ → α → Nat → Except ε β` where the
  `Nat` is the 0-based attempt index inside `executeWithRetry`.
* `post` may mutate the store and returns the routing action, modelled as
  `σ → List α → List β → JsAction × σ`.
* JavaScript's single-threaded event loop makes the interleaving of the
  concurrently launched exec pipelines the only source of nondeterminism in a
  cycle.  A cycle is therefore parameterized by a *schedule*: a list of
  `arrive pid` events (pipeline `pid` pushes its item onto `prepItems`,
  i.e. `prepItems.push(await item)` resumes) and `complete pid` events
  (pipeline `pid` pushes its exec value onto `execResults`).  A schedule is
  valid when every pipeline arrives exactly once and completes exactly once,
  after its arrival — exactly the traces the event loop can realize.
* Machine numbers: `maxRetries` and `timeout` are modelled as `Nat`,
  `retryDelay` as `Int` (the source clamps it with `Math.max(_, 0)`).
* The unbounded recursion of `run` is modelled with an explicit fuel
  parameter; running out of fuel is a distinguished outcome that corresponds
  to no terminating JavaScript execution.
-/

namespace Pinflow

/-- The runtime values of the TypeScript `Action` type
(`string | typeof KILL | undefined | null`).  `post` may also return `void`,
which is the same runtime value as `undefined`. -/
inductive JsAction where
  | str (s : String)
  | kill
  | undef
  | jsNull
deriving DecidableEq, Repr

/-- An error escaping `executeWithRetry`: either an error thrown by
`exec`/`execFallback`, or the `throw new Error('Unreachable')` after the loop. -/
inductive Thrown (ε : Type) where
  | fromExec (e : ε)
  | unreachable
deriving DecidableEq, Repr

/-- The `NodeConfig` interface (`maxRetries`, `retryDelay`, `timeout`). -/
structure NodeConfig where
  maxRetries : Nat
  retryDelay : Int
  timeout : Nat
deriving DecidableEq, Repr

/-- `DEFAULT_NODE_CONFIG` from the source. -/
def DEFAULT_NODE_CONFIG : NodeConfig :=
  { maxRetries := 3, retryDelay := 2000, timeout := 60000 }

/-- One workflow node: the resolved configuration fields plus the abstract
methods of the `Node` class.  Edges are the node's `Map<Action, Node>`; target
nodes are identified by an index into the ambient graph (`Graph.nodes`). -/
structure NodeSpec (σ α β ε : Type) where
  maxRetries : Nat
  retryDelay : Int
  timeout : Nat
  prep : σ → List α
  exec : σ → α → Nat → Except ε β
  execFallback : Option (σ → α → ε → Except ε β)
  post : σ → List α → List β → JsAction × σ
  edges : List (JsAction × Nat)

/-- `Map.set` semantics: overwrite the entry for the key if present, otherwise
append a new entry. -/
def edgesSet (es : List (JsAction × Nat)) (k : JsAction) (t : Nat) :
    List (JsAction × Nat) :=
  match es with
  | [] => [(k, t)]
  | (k0, t0) :: rest =>
    if k0 = k then (k, t) :: rest else (k0, t0) :: edgesSet rest k t

/-- `Map.get` semantics: first entry with the key, if any. -/
def edgesGet (es : List (JsAction × Nat)) (k : JsAction) : Option Nat :=
  match es with
  | [] => none
  | (k0, t0) :: rest => if k0 = k then some t0 else edgesGet rest k

/-- `getEdge(action)`: `this.edges.get(action)`. -/
def NodeSpec.getEdge (n : NodeSpec σ α β ε) (k : JsAction) : Option Nat :=
  edgesGet n.edges k

/-- The one-argument form `connect(target)`: the source takes the
`target === undefined` branch and runs `this.edges.set('default', action as Node)`
(the single argument, a node, arrived in the `action` parameter). -/
def NodeSpec.connect1 (n : NodeSpec σ α β ε) (target : Nat) : NodeSpec σ α β ε :=
  { n with edges := edgesSet n.edges (.str "default") target }

/-- The two-argument form `connect(action, target)`:
`this.edges.set(action as Action, target)`. -/
def NodeSpec.connect2 (n : NodeSpec σ α β ε) (action : JsAction) (target : Nat) :
    NodeSpec σ α β ε :=
  { n with edges := edgesSet n.edges action target }

instance [DecidableEq ε] [DecidableEq α] : DecidableEq (Except ε α) := fun x y =>
  match x, y with
  | .ok a, .ok b =>
    if h : a = b then .isTrue (by rw [h]) else .isFalse (by simp [h])
  | .error a, .error b =>
    if h : a = b then .isTrue (by rw [h]) else .isFalse (by simp [h])
  | .ok _, .error _ => .isFalse (by simp)
  | .error _, .ok _ => .isFalse (by simp)

/-- The outcome of one `executeWithRetry` call, together with the observable
side effects of the wrapper: the arguments of every `onError` invocation
(error, `attempt + 1`, `maxRetries`), the number of times `exec` was invoked,
whether `execFallback` was used, and the (clamped) delays slept. -/
structure RetryResult (ε β : Type) where
  result : Except (Thrown ε) β
  onErrorCalls : List (ε × Nat × Nat)
  execAttempts : Nat
  usedFallback : Bool
  sleeps : List Int
deriving DecidableEq, Repr

/-- The `for (let attempt = 0; attempt < maxRetries; attempt++)` loop of
`executeWithRetry`.  `attempt` is the loop counter and `remaining` the number
of loop iterations still allowed (`maxRetries - attempt`), carried explicitly
so that the recursion is structural; the guard `attempt === maxRetries - 1`
("all retries exhausted") is equivalent to `remaining = 1`.  `remaining = 0`
means the loop guard `attempt < maxRetries` fails, reaching
`throw new Error('Unreachable')`. -/
def retryLoop (mr : Nat) (d : Int) (ex : Nat → Except ε β)
    (fb : Option (ε → Except ε β)) : Nat → Nat → RetryResult ε β
  | _, 0 => ⟨.error .unreachable, [], 0, false, []⟩
  | attempt, r + 1 =>
    match ex attempt with
    | .ok v => ⟨.ok v, [], 1, false, []⟩
    | .error e =>
      if r = 0 then
        match fb with
        | some f => ⟨(f e).mapError Thrown.fromExec, [], 1, true, []⟩
        | none => ⟨.error (.fromExec e), [], 1, false, []⟩
      else
        let rest := retryLoop mr d ex fb (attempt + 1) r
        ⟨rest.result, (e, attempt + 1, mr) :: rest.onErrorCalls,
          rest.execAttempts + 1, rest.usedFallback, max d 0 :: rest.sleeps⟩

/-- `executeWithRetry(node, store, item)`. -/
def executeWithRetry (n : NodeSpec σ α β ε) (s : σ) (item : α) : RetryResult ε β :=
  retryLoop n.maxRetries n.retryDelay (n.exec s item)
    (n.execFallback.map (fun f => f s item)) 0 n.maxRetries

/-- An observable event inside one cycle of `run`: pipeline `pid` resumes at
`prepItems.push(await item)` (`arrive`), pipeline `pid` resumes at
`execResults.push(execValue)` (`complete`), or `node.post(...)` is invoked
(`postInvoke`). -/
inductive CycleEv where
  | arrive (pid : Nat)
  | complete (pid : Nat)
  | postInvoke
deriving DecidableEq, Repr

/-- Scheduled events must be `arrive`/`complete` of a launched pipeline. -/
def schedPidOk (numPipelines : Nat) : CycleEv → Bool
  | .arrive pid => pid < numPipelines
  | .complete pid => pid < numPipelines
  | .postInvoke => false

/-- A schedule is a trace the event loop can realize for `numPipelines`
launched pipelines: every pipeline arrives exactly once and completes exactly
once, its arrival strictly before its completion, and no other events occur. -/
def isValidSchedule (numPipelines : Nat) (tr : List CycleEv) : Bool :=
  tr.all (schedPidOk numPipelines) &&
  (List.range numPipelines).all (fun pid =>
    tr.count (.arrive pid) == 1 && tr.count (.complete pid) == 1 &&
    tr.findIdx (fun ev => ev == .arrive pid) <
      tr.findIdx (fun ev => ev == .complete pid))

/-- The retry outcome of pipeline `pid` (exec pipeline launched for the
`pid`-th produced item). -/
def pipelineResult (n : NodeSpec σ α β ε) (s : σ) (items : List α) (pid : Nat) :
    Option (RetryResult ε β) :=
  (items[pid]?).map (fun x => executeWithRetry n s x)

/-- Effect of one scheduled event on the `prepItems` / `execResults` arrays:
`arrive pid` appends the produced item, `complete pid` appends the exec value
(a pipeline whose retry wrapper rejects never reaches its push). -/
def collectStep (items : List α) (res : Nat → Option (RetryResult ε β)) :
    List α × List β → CycleEv → List α × List β
  | (ps, es), .arrive pid =>
    match items[pid]? with
    | some x => (ps ++ [x], es)
    | none => (ps, es)
  | (ps, es), .complete pid =>
    match res pid with
    | some r =>
      match r.result with
      | .ok v => (ps, es ++ [v])
      | .error _ => (ps, es)
    | none => (ps, es)
  | (ps, es), .postInvoke => (ps, es)

/-- The `prepItems` and `execResults` arrays as accumulated by the schedule. -/
def collect (items : List α) (res : Nat → Option (RetryResult ε β))
    (tr : List CycleEv) : List α × List β :=
  tr.foldl (collectStep items res) ([], [])

/-- The rejection a scheduled event surfaces, if any: a `complete` event of a
pipeline whose retry wrapper rejected surfaces that error. -/
def cycleErrAt (res : Nat → Option (RetryResult ε β)) : CycleEv → Option (Thrown ε)
  | .complete pid =>
    match res pid with
    | some r =>
      match r.result with
      | .ok _ => none
      | .error e => some e
    | none => none
  | _ => none

/-- The error with which `await Promise.all(execPromises)` rejects: the error
of the first pipeline (in completion order) whose retry wrapper rejects, if
any. -/
def cycleError (res : Nat → Option (RetryResult ε β)) (tr : List CycleEv) :
    Option (Thrown ε) :=
  tr.findSome? (cycleErrAt res)

/-- The observable outcome of one cycle of `run` for a node: the two arrays,
the event trace (with `postInvoke` appended when `post` is reached), and
either the propagated failure or `post`'s returned action and updated store. -/
structure CycleOut (σ α β ε : Type) where
  prepItems : List α
  execResults : List β
  events : List CycleEv
  result : Except (Thrown ε) (JsAction × σ)

/-- One cycle of `run` (source lines 203–226) under a given schedule: launch
one pipeline per produced item, accumulate the arrays in schedule order, join
(`await Promise.all`), and if no pipeline rejected invoke
`post(store, prepItems, execResults)`. -/
def runCycle (n : NodeSpec σ α β ε) (s : σ) (sched : List CycleEv) :
    CycleOut σ α β ε :=
  let items := n.prep s
  let res := pipelineResult n s items
  let pe := collect items res sched
  match cycleError res sched with
  | some e => ⟨pe.1, pe.2, sched, .error e⟩
  | none =>
    let as2 := n.post s pe.1 pe.2
    ⟨pe.1, pe.2, sched ++ [.postInvoke], .ok as2⟩

/-- A workflow graph: the nodes reachable during a traversal, indexed by
`Nat` (the edge tables of `NodeSpec` store these indices). -/
structure Graph (σ α β ε : Type) where
  nodes : Nat → NodeSpec σ α β ε

/-- `action ?? 'default'`: `undefined` and `null` are replaced by the string
key `'default'`; any other value is used as the lookup key unchanged. -/
def routeKey : JsAction → JsAction
  | .undef => .str "default"
  | .jsNull => .str "default"
  | .str t => .str t
  | .kill => .kill

/-- `node.getEdge(action ?? 'default') || node.getEdge('default')` (source
line 228; only evaluated after the `action === KILL` early return). -/
def resolveNext (n : NodeSpec σ α β ε) (a : JsAction) : Option Nat :=
  match n.getEdge (routeKey a) with
  | some nid => some nid
  | none => n.getEdge (.str "default")

/-- Trace of a traversal: which nodes were entered, and each `post` invocation
with the exact arrays passed to it. -/
inductive TrEv (α β : Type) where
  | enter (nid : Nat)
  | postEv (nid : Nat) (prepItems : List α) (execResults : List β)
deriving DecidableEq, Repr

/-- Outcome of `run`: an unrecovered failure, or fuel exhaustion (an artifact
of the embedding standing for a non-terminating recursion). -/
inductive RunErr (ε : Type) where
  | thrown (e : Thrown ε)
  | fuelOut
deriving DecidableEq, Repr

/-- `run(node, store)` (source lines 203–232), with an explicit fuel bound on
the recursion depth and one schedule per cycle (`scheds.headD []` resolves the
current cycle's interleaving, the tail is passed to the recursive call). -/
def run (g : Graph σ α β ε) : Nat → Nat → σ → List (List CycleEv) →
    Except (RunErr ε) Unit × List (TrEv α β)
  | 0, _, _, _ => (.error .fuelOut, [])
  | fuel + 1, nid, s, scheds =>
    let n := g.nodes nid
    let c := runCycle n s (scheds.headD [])
    match c.result with
    | .error e => (.error (.thrown e), [.enter nid])
    | .ok (a, s2) =>
      if a = .kill then
        (.ok (), [.enter nid, .postEv nid c.prepItems c.execResults])
      else
        match resolveNext n a with
        | some nid2 =>
          let rt := run g fuel nid2 s2 scheds.tail
          (rt.1, [.enter nid, .postEv nid c.prepItems c.execResults] ++ rt.2)
        | none =>
          (.ok (), [.enter nid, .postEv nid c.prepItems c.execResults])

/-- `{n with timeout := t}`: the same node with a different configured
`timeout`. -/
def NodeSpec.withTimeout (n : NodeSpec σ α β ε) (t : Nat) : NodeSpec σ α β ε :=
  { n with timeout := t }

/-- A graph whose nodes carry arbitrarily reassigned `timeout` values. -/
def Graph.withTimeouts (g : Graph σ α β ε) (f : Nat → Nat) : Graph σ α β ε :=
  ⟨fun nid => (g.nodes nid).withTimeout (f nid)⟩

/-! ### Concrete instances used to witness the theorems -/

/-- Two plain items; exec maps an item `x` to `x + 10` (given unbounded time,
i.e. at any attempt). -/
def nodeA : NodeSpec Unit Nat Nat Unit where
  maxRetries := 3
  retryDelay := 2000
  timeout := 60000
  prep := fun _ => [0, 1]
  exec := fun _ x _ => .ok (x + 10)
  execFallback := none
  post := fun s _ _ => (.kill, s)
  edges := []

/-- The interleaving produced by the event loop when both items are plain
values (arrivals in production order: the pushes `prepItems.push(await item)`
resume in launch order) but item 0's exec latency exceeds item 1's, so
pipeline 1 reaches `execResults.push` first — the spec's own §8 scenario. -/
def schedA : List CycleEv := [.arrive 0, .arrive 1, .complete 1, .complete 0]

def graphA : Graph Unit Nat Nat Unit := ⟨fun _ => nodeA⟩

/-- exec fails at attempts 0 and 1 and succeeds at attempt 2. -/
def nodeB : NodeSpec Unit Unit Nat Nat where
  maxRetries := 3
  retryDelay := 2000
  timeout := 60000
  prep := fun _ => [()]
  exec := fun _ _ i => if i < 2 then .error i else .ok 42
  execFallback := none
  post := fun s _ _ => (.kill, s)
  edges := []

/-- exec always fails (with error `x + i` at attempt `i` on item `x`),
no fallback. -/
def nodeC : NodeSpec Unit Nat Nat Nat where
  maxRetries := 3
  retryDelay := 2000
  timeout := 60000
  prep := fun _ => [0]
  exec := fun _ x i => .error (x + i)
  execFallback := none
  post := fun s _ _ => (.kill, s)
  edges := []

def graphC : Graph Unit Nat Nat Nat := ⟨fun _ => nodeC⟩

/-- exec always fails; the fallback degrades item `x` to `x * 2`. -/
def nodeD : NodeSpec Unit Nat Nat Nat where
  maxRetries := 3
  retryDelay := 2000
  timeout := 60000
  prep := fun _ => [3]
  exec := fun _ _ i => .error i
  execFallback := some (fun _ x _ => .ok (x * 2))
  post := fun s _ _ => (.kill, s)
  edges := []

def graphD : Graph Unit Nat Nat Nat := ⟨fun _ => nodeD⟩

/-- An empty produce step; post routes via the named action "go". -/
def nodeE : NodeSpec Unit Nat Nat Unit where
  maxRetries := 3
  retryDelay := 2000
  timeout := 60000
  prep := fun _ => []
  exec := fun _ x _ => .ok x
  execFallback := none
  post := fun s _ _ => (.str "go", s)
  edges := [(.str "go", 1)]

def graphE : Graph Unit Nat Nat Unit := ⟨fun _ => nodeE⟩

/-- Two items, exec maps `x` to `x + 1`; used with an out-of-order schedule. -/
def nodeF : NodeSpec Unit Nat Nat Unit where
  maxRetries := 3
  retryDelay := 2000
  timeout := 60000
  prep := fun _ => [5, 6]
  exec := fun _ x _ => .ok (x + 1)
  execFallback := none
  post := fun s _ _ => (.undef, s)
  edges := []

/-- An empty produce step; post returns `undefined` and a default edge is
registered, so the empty cycle recurses. -/
def nodeG : NodeSpec Unit Nat Nat Unit where
  maxRetries := 3
  retryDelay := 2000
  timeout := 60000
  prep := fun _ => []
  exec := fun _ x _ => .ok x
  execFallback := none
  post := fun s _ _ => (.undef, s)
  edges := [(.str "default", 1)]

/-- Node 0 is `nodeG`; node 1 is a terminating node. -/
def graphG : Graph Unit Nat Nat Unit :=
  ⟨fun nid => if nid = 0 then nodeG else nodeE⟩

/-- The value `arrive pid` appends to `prepItems`, if any. -/
def arriveVal (items : List α) : CycleEv → Option α
  | .arrive pid => items[pid]?
  | _ => none

/-- The value `complete pid` appends to `execResults`, if any. -/
def completeVal (res : Nat → Option (RetryResult ε β)) : CycleEv → Option β
  | .complete pid =>
    match res pid with
    | some r =>
      match r.result with
      | .ok v => some v
      | .error _ => none
    | none => none
  | _ => none

/-- Pipeline ids of the `complete` events of a trace, in trace order. -/
def completePids : List CycleEv → List Nat :=
  List.filterMap fun ev =>
    match ev with
    | .complete pid => some pid
    | _ => none

/-- Pipeline ids of the `arrive` events of a trace, in trace order. -/
def arrivePids : List CycleEv → List Nat :=
  List.filterMap fun ev =>
    match ev with
    | .arrive pid => some pid
    | _ => none

/-! ### Lemmas about the retry loop -/

/-- Splitting the list of `onError` call records at the first entry. -/
theorem onError_range_shift (errs : Nat → ε) (mr a k : Nat) :
    (List.range (k + 1)).map (fun i => (errs (a + i), a + i + 1, mr)) =
      (errs a, a + 1, mr) ::
        (List.range k).map (fun i => (errs (a + 1 + i), a + 1 + i + 1, mr)) := by
  rw [List.range_succ_eq_map, List.map_cons, List.map_map]
  simp only [Nat.add_zero]
  refine congrArg₂ _ rfl ?_
  apply List.map_congr_left
  intro i _
  simp only [Function.comp_apply, Nat.succ_eq_add_one]
  have he : a + (i + 1) = a + 1 + i := by omega
  rw [he]

/-- If `exec` fails at attempts `a, …, a + k - 1` and succeeds at attempt
`a + k`, with at least `k + 1` loop iterations allowed, the loop returns the
success value after `k + 1` exec invocations, calling `onError` (and sleeping)
once per failure. -/
theorem retryLoop_success (mr : Nat) (d : Int) (ex : Nat → Except ε β)
    (fb : Option (ε → Except ε β)) (errs : Nat → ε) (v : β) :
    ∀ k a r, k < r →
      (∀ i, i < k → ex (a + i) = .error (errs (a + i))) →
      ex (a + k) = .ok v →
      retryLoop mr d ex fb a r =
        ⟨.ok v, (List.range k).map (fun i => (errs (a + i), a + i + 1, mr)),
          k + 1, false, List.replicate k (max d 0)⟩ := by
  intro k
  induction k with
  | zero =>
    intro a r hr hfail hsucc
    match r, hr with
    | r + 1, _ =>
      simp only [retryLoop]
      rw [show a + 0 = a from rfl] at hsucc
      rw [hsucc]
      simp
  | succ k ih =>
    intro a r hr hfail hsucc
    match r, hr with
    | r + 1, hr =>
      simp only [retryLoop]
      have h0 : ex a = .error (errs a) := by
        have h := hfail 0 (Nat.succ_pos k)
        simpa using h
      rw [h0]
      have hrne : ¬(r = 0) := by omega
      simp only [if_neg hrne]
      have hsh : a + 1 + k = a + (k + 1) := by omega
      rw [ih (a + 1) r (by omega)
          (fun i hi => by
            have h := hfail (i + 1) (by omega)
            have he : a + 1 + i = a + (i + 1) := by omega
            rw [he]
            exact h)
          (by rw [hsh]; exact hsucc),
        onError_range_shift errs mr a k, List.replicate_succ]

/-- If `exec` fails at every attempt from `a` through `a + r - 1` (all
remaining iterations), the loop makes all `r` remaining exec invocations,
calls `onError` before each of the `r - 1` retries, and at the last attempt
either returns the fallback's value or rethrows the last error. -/
theorem retryLoop_allFail (mr : Nat) (d : Int) (ex : Nat → Except ε β)
    (fb : Option (ε → Except ε β)) (errs : Nat → ε) :
    ∀ r a, 0 < r →
      (∀ i, a ≤ i → i < a + r → ex i = .error (errs i)) →
      retryLoop mr d ex fb a r =
        ⟨(match fb with
          | some f => (f (errs (a + r - 1))).mapError Thrown.fromExec
          | none => .error (.fromExec (errs (a + r - 1)))),
          (List.range (r - 1)).map (fun i => (errs (a + i), a + i + 1, mr)),
          r, fb.isSome, List.replicate (r - 1) (max d 0)⟩ := by
  intro r
  induction r with
  | zero => intro a hr; omega
  | succ r ih =>
    intro a _ hfail
    simp only [retryLoop]
    have h0 : ex a = .error (errs a) := hfail a (Nat.le_refl a) (by omega)
    rw [h0]
    by_cases hr0 : r = 0
    · subst hr0
      simp only [if_pos rfl]
      match fb with
      | some f => simp
      | none => simp
    · simp only [if_neg hr0]
      rw [ih (a + 1) (by omega)
          (fun i hi1 hi2 => hfail i (by omega) (by omega))]
      have he1 : a + 1 + r - 1 = a + (r + 1) - 1 := by omega
      have hr1 : r + 1 - 1 = (r - 1) + 1 := by omega
      rw [he1, hr1, onError_range_shift errs mr a (r - 1), List.replicate_succ]

/-- Structure of any `retryLoop` outcome when at least one iteration is
allowed: between 1 and `r` exec invocations, the `Unreachable` branch never
taken, and the result is a success value of some attempt, or — when every
attempt up to the last failed — the fallback applied to the last error, or
that error rethrown. -/
theorem retryLoop_shape (mr : Nat) (d : Int) (ex : Nat → Except ε β)
    (fb : Option (ε → Except ε β)) :
    ∀ r a, 0 < r →
      1 ≤ (retryLoop mr d ex fb a r).execAttempts ∧
      (retryLoop mr d ex fb a r).execAttempts ≤ r ∧
      (retryLoop mr d ex fb a r).result ≠ .error .unreachable ∧
      ((∃ i v, a ≤ i ∧ i < a + r ∧ ex i = .ok v ∧
          (retryLoop mr d ex fb a r).result = .ok v) ∨
        (∃ e, ex (a + r - 1) = .error e ∧
          ((fb = none ∧
              (retryLoop mr d ex fb a r).result = .error (.fromExec e)) ∨
            (∃ f, fb = some f ∧
              (retryLoop mr d ex fb a r).result =
                (f e).mapError Thrown.fromExec)))) := by
  intro r
  induction r with
  | zero => intro a hr; omega
  | succ r ih =>
    intro a _
    simp only [retryLoop]
    cases hex : ex a with
    | ok v =>
      refine ⟨by simp, by simp, by simp, .inl ⟨a, v, Nat.le_refl a, by omega, hex, by simp⟩⟩
    | error e =>
      by_cases hr0 : r = 0
      · subst hr0
        simp only [if_pos rfl]
        match fb with
        | some f =>
          refine ⟨by simp, by simp, ?_, .inr ⟨e, by simpa using hex, .inr ⟨f, rfl, by simp⟩⟩⟩
          simp only
          cases hf : f e <;> simp [Except.mapError, hf]
        | none =>
          exact ⟨by simp, by simp, by simp, .inr ⟨e, by simpa using hex, .inl ⟨rfl, by simp⟩⟩⟩
      · simp only [if_neg hr0]
        obtain ⟨h1, h2, h3, h4⟩ := ih (a + 1) (by omega)
        refine ⟨by simp, by simpa using Nat.add_le_add_right h2 1, by simpa using h3, ?_⟩
        rcases h4 with ⟨i, v, hi1, hi2, hexi, hres⟩ | ⟨e2, hexl, hrest⟩
        · exact .inl ⟨i, v, by omega, by omega, hexi, by simpa using hres⟩
        · refine .inr ⟨e2, ?_, ?_⟩
          · have he : a + (r + 1) - 1 = a + 1 + r - 1 := by omega
            rw [he]
            exact hexl
          · rcases hrest with ⟨hfb, hres⟩ | ⟨f, hfb, hres⟩
            · exact .inl ⟨hfb, by simpa using hres⟩
            · exact .inr ⟨f, hfb, by simpa using hres⟩

/-! ### Lemmas about schedules and the collected arrays -/

theorem collect_foldl (items : List α) (res : Nat → Option (RetryResult ε β)) :
    ∀ (tr : List CycleEv) (ps : List α) (es : List β),
      tr.foldl (collectStep items res) (ps, es) =
        (ps ++ tr.filterMap (arriveVal items),
          es ++ tr.filterMap (completeVal res)) := by
  intro tr
  induction tr with
  | nil => intro ps es; simp
  | cons ev tr ih =>
    intro ps es
    cases ev with
    | arrive pid =>
      cases hit : items[pid]? with
      | some x =>
        simp [List.foldl_cons, collectStep, hit, ih, arriveVal, completeVal,
          List.filterMap_cons]
      | none =>
        simp [List.foldl_cons, collectStep, hit, ih, arriveVal, completeVal,
          List.filterMap_cons]
    | complete pid =>
      cases hres : res pid with
      | some r =>
        cases hr : r.result with
        | ok v =>
          simp [List.foldl_cons, collectStep, hres, hr, ih, arriveVal,
            completeVal, List.filterMap_cons]
        | error e =>
          simp [List.foldl_cons, collectStep, hres, hr, ih, arriveVal,
            completeVal, List.filterMap_cons]
      | none =>
        simp [List.foldl_cons, collectStep, hres, ih, arriveVal, completeVal,
          List.filterMap_cons]
    | postInvoke =>
      simp [List.foldl_cons, collectStep, ih, arriveVal, completeVal,
        List.filterMap_cons]

/-- The two arrays are exactly the in-trace-order values of the arrive
(resp. complete) events. -/
theorem collect_eq (items : List α) (res : Nat → Option (RetryResult ε β))
    (tr : List CycleEv) :
    collect items res tr =
      (tr.filterMap (arriveVal items), tr.filterMap (completeVal res)) := by
  rw [collect, collect_foldl]
  simp

theorem filterMap_arriveVal (items : List α) (tr : List CycleEv) :
    tr.filterMap (arriveVal items) =
      (arrivePids tr).filterMap (fun pid => items[pid]?) := by
  induction tr with
  | nil => rfl
  | cons ev tr ih =>
    cases ev with
    | arrive pid =>
      have hp : arrivePids (CycleEv.arrive pid :: tr) = pid :: arrivePids tr := by
        simp [arrivePids, List.filterMap_cons]
      rw [hp, List.filterMap_cons, List.filterMap_cons, ih]
      rfl
    | complete pid => simpa [arrivePids, arriveVal, List.filterMap_cons] using ih
    | postInvoke => simpa [arrivePids, arriveVal, List.filterMap_cons] using ih

theorem filterMap_completeVal (res : Nat → Option (RetryResult ε β))
    (tr : List CycleEv) :
    tr.filterMap (completeVal res) =
      (completePids tr).filterMap
        (fun pid => completeVal res (.complete pid)) := by
  induction tr with
  | nil => rfl
  | cons ev tr ih =>
    cases ev with
    | arrive pid => simpa [completePids, completeVal, List.filterMap_cons] using ih
    | complete pid =>
      have hp : completePids (CycleEv.complete pid :: tr) = pid :: completePids tr := by
        simp [completePids, List.filterMap_cons]
      rw [hp, List.filterMap_cons, List.filterMap_cons, ih]
    | postInvoke => simpa [completePids, completeVal, List.filterMap_cons] using ih

theorem filterMap_eq_map_of_all (l : List γ) (f : γ → Option δ) (g : γ → δ)
    (h : ∀ x ∈ l, f x = some (g x)) : l.filterMap f = l.map g := by
  induction l with
  | nil => rfl
  | cons x xs ih =>
    rw [List.filterMap_cons, h x (List.mem_cons_self x xs), List.map_cons,
      ih (fun y hy => h y (List.mem_cons_of_mem x hy))]

theorem range_filterMap_getElem (l : List α) (f : α → δ) :
    (List.range l.length).filterMap (fun i => (l[i]?).map f) = l.map f := by
  induction l with
  | nil => simp
  | cons x xs ih =>
    rw [List.length_cons, List.range_succ_eq_map, List.filterMap_cons]
    simp only [List.getElem?_cons_zero, Option.map_some']
    rw [List.filterMap_map, List.map_cons]
    refine congrArg₂ _ rfl ?_
    rw [← ih]
    apply List.filterMap_congr
    intro i _
    simp [Function.comp, Nat.succ_eq_add_one]

theorem count_range_eq (pid N : Nat) :
    (List.range N).count pid = if pid < N then 1 else 0 := by
  induction N with
  | zero => simp
  | succ n ih =>
    rw [List.range_succ, List.count_append, ih]
    rcases Nat.lt_trichotomy pid n with h | h | h
    · have h1 : pid < n + 1 := by omega
      have h2 : ¬((n == pid) = true) := by simp; omega
      simp [h, h1, List.count_cons, h2]
    · subst h
      simp [List.count_cons]
    · have h1 : ¬(pid < n) := by omega
      have h2 : ¬(pid < n + 1) := by omega
      have h3 : ¬((n == pid) = true) := by simp; omega
      simp [h1, h2, List.count_cons, h3]

/-- `count` is preserved through the pid extraction of `complete` events. -/
theorem count_completePids (tr : List CycleEv) (pid : Nat) :
    (completePids tr).count pid = tr.count (.complete pid) := by
  induction tr with
  | nil => rfl
  | cons ev tr ih =>
    cases ev with
    | arrive q =>
      rw [List.count_cons]
      simp only [completePids, List.filterMap_cons]
      rw [← completePids, ih]
      simp
    | complete q =>
      simp only [completePids, List.filterMap_cons]
      rw [List.count_cons, List.count_cons, ← completePids, ih]
      by_cases h : q = pid
      · subst h; simp
      · have h1 : ¬((q == pid) = true) := by simp [h]
        have h2 : ¬((CycleEv.complete q == CycleEv.complete pid) = true) := by
          simp [h]
        simp [h1, h2]
    | postInvoke =>
      rw [List.count_cons]
      simp only [completePids, List.filterMap_cons]
      rw [← completePids, ih]
      simp

/-- Same for `arrive` events. -/
theorem count_arrivePids (tr : List CycleEv) (pid : Nat) :
    (arrivePids tr).count pid = tr.count (.arrive pid) := by
  induction tr with
  | nil => rfl
  | cons ev tr ih =>
    cases ev with
    | complete q =>
      rw [List.count_cons]
      simp only [arrivePids, List.filterMap_cons]
      rw [← arrivePids, ih]
      simp
    | arrive q =>
      simp only [arrivePids, List.filterMap_cons]
      rw [List.count_cons, List.count_cons, ← arrivePids, ih]
      by_cases h : q = pid
      · subst h; simp
      · have h1 : ¬((q == pid) = true) := by simp [h]
        have h2 : ¬((CycleEv.arrive q == CycleEv.arrive pid) = true) := by
          simp [h]
        simp [h1, h2]
    | postInvoke =>
      rw [List.count_cons]
      simp only [arrivePids, List.filterMap_cons]
      rw [← arrivePids, ih]
      simp

theorem range_filterMap_getElem_id (l : List α) :
    (List.range l.length).filterMap (fun i => l[i]?) = l := by
  have h := range_filterMap_getElem l id
  simpa using h

theorem valid_pid_lt (N : Nat) (tr : List CycleEv)
    (hval : isValidSchedule N tr = true) :
    ∀ ev ∈ tr, schedPidOk N ev = true := by
  rw [isValidSchedule, Bool.and_eq_true, List.all_eq_true] at hval
  exact fun ev hev => hval.1 ev hev

theorem valid_counts (N : Nat) (tr : List CycleEv)
    (hval : isValidSchedule N tr = true) :
    ∀ pid, pid < N →
      tr.count (.arrive pid) = 1 ∧ tr.count (.complete pid) = 1 := by
  rw [isValidSchedule, Bool.and_eq_true] at hval
  intro pid hpid
  have h := (List.all_eq_true.mp hval.2) pid (List.mem_range.mpr hpid)
  simp only [Bool.and_eq_true, beq_iff_eq, decide_eq_true_eq] at h
  exact ⟨h.1.1, h.1.2⟩

/-- Under a valid schedule the completion pids are a permutation of
`0, …, N - 1`. -/
theorem completePids_perm (N : Nat) (tr : List CycleEv)
    (hval : isValidSchedule N tr = true) :
    (completePids tr).Perm (List.range N) := by
  rw [List.perm_iff_count]
  intro pid
  rw [count_completePids, count_range_eq]
  by_cases h : pid < N
  · rw [(valid_counts N tr hval pid h).2, if_pos h]
  · rw [if_neg h, List.count_eq_zero]
    intro hmem
    have hok := valid_pid_lt N tr hval _ hmem
    simp only [schedPidOk, decide_eq_true_eq] at hok
    omega

/-- Under a valid schedule the arrival pids are a permutation of
`0, …, N - 1`. -/
theorem arrivePids_perm (N : Nat) (tr : List CycleEv)
    (hval : isValidSchedule N tr = true) :
    (arrivePids tr).Perm (List.range N) := by
  rw [List.perm_iff_count]
  intro pid
  rw [count_arrivePids, count_range_eq]
  by_cases h : pid < N
  · rw [(valid_counts N tr hval pid h).1, if_pos h]
  · rw [if_neg h, List.count_eq_zero]
    intro hmem
    have hok := valid_pid_lt N tr hval _ hmem
    simp only [schedPidOk, decide_eq_true_eq] at hok
    omega

/-! ### Lemmas about the propagated cycle failure -/

theorem cycleError_none (res : Nat → Option (RetryResult ε β))
    (tr : List CycleEv)
    (h : ∀ pid, CycleEv.complete pid ∈ tr →
      ∀ r, res pid = some r → ∃ v, r.result = .ok v) :
    cycleError res tr = none := by
  induction tr with
  | nil => rfl
  | cons ev tr ih =>
    rw [cycleError, List.findSome?_cons]
    have htail : cycleError res tr = none :=
      ih fun pid hmem r hr => h pid (List.mem_cons_of_mem ev hmem) r hr
    rw [cycleError] at htail
    have hhead : cycleErrAt res ev = none := by
      cases ev with
      | arrive pid => rfl
      | postInvoke => rfl
      | complete pid =>
        cases hres : res pid with
        | none => simp [cycleErrAt, hres]
        | some r =>
          obtain ⟨v, hv⟩ := h pid (List.mem_cons_self _ _) r hres
          simp [cycleErrAt, hres, hv]
    rw [hhead]
    exact htail

theorem cycleError_some (res : Nat → Option (RetryResult ε β)) :
    ∀ tr : List CycleEv,
      (∃ pid, CycleEv.complete pid ∈ tr) →
      (∀ pid, CycleEv.complete pid ∈ tr →
        ∃ r e, res pid = some r ∧ r.result = .error e) →
      ∃ pid r e, CycleEv.complete pid ∈ tr ∧ res pid = some r ∧
        r.result = .error e ∧ cycleError res tr = some e := by
  intro tr
  induction tr with
  | nil => intro hmem _; obtain ⟨pid, hpid⟩ := hmem; simp at hpid
  | cons ev tr ih =>
    intro hmem herr
    cases ev with
    | complete pid =>
      obtain ⟨r, e, hr, he⟩ := herr pid (List.mem_cons_self _ _)
      refine ⟨pid, r, e, List.mem_cons_self _ _, hr, he, ?_⟩
      rw [cycleError, List.findSome?_cons]
      rw [show cycleErrAt res (CycleEv.complete pid) = some e by
        simp [cycleErrAt, hr, he]]
    | arrive pid =>
      have hmem2 : ∃ pid, CycleEv.complete pid ∈ tr := by
        obtain ⟨q, hq⟩ := hmem
        rcases List.mem_cons.mp hq with h | h
        · exact absurd h (by simp)
        · exact ⟨q, h⟩
      obtain ⟨q, r, e, hq, hr, he, hce⟩ :=
        ih hmem2 (fun q hq => herr q (List.mem_cons_of_mem _ hq))
      refine ⟨q, r, e, List.mem_cons_of_mem _ hq, hr, he, ?_⟩
      rw [cycleError, List.findSome?_cons,
        show cycleErrAt res (CycleEv.arrive pid) = none from rfl]
      rw [cycleError] at hce
      exact hce
    | postInvoke =>
      have hmem2 : ∃ pid, CycleEv.complete pid ∈ tr := by
        obtain ⟨q, hq⟩ := hmem
        rcases List.mem_cons.mp hq with h | h
        · exact absurd h (by simp)
        · exact ⟨q, h⟩
      obtain ⟨q, r, e, hq, hr, he, hce⟩ :=
        ih hmem2 (fun q hq => herr q (List.mem_cons_of_mem _ hq))
      refine ⟨q, r, e, List.mem_cons_of_mem _ hq, hr, he, ?_⟩
      rw [cycleError, List.findSome?_cons,
        show cycleErrAt res CycleEv.postInvoke = none from rfl]
      rw [cycleError] at hce
      exact hce

/-! ### The success path of one cycle -/

theorem pipelineResult_ok (n : NodeSpec σ α β ε) (s : σ) (okv : α → β)
    (hok : ∀ x ∈ n.prep s, (executeWithRetry n s x).result = .ok (okv x)) :
    ∀ pid r, pipelineResult n s (n.prep s) pid = some r →
      ∃ v, r.result = .ok v := by
  intro pid r hr
  rw [pipelineResult] at hr
  cases hit : (n.prep s)[pid]? with
  | none => rw [hit] at hr; simp at hr
  | some x =>
    rw [hit] at hr
    have hxr : executeWithRetry n s x = r := by simpa using hr
    exact ⟨okv x, by rw [← hxr]; exact hok x (List.getElem?_mem hit)⟩

theorem completeVal_eq (n : NodeSpec σ α β ε) (s : σ) (okv : α → β)
    (hok : ∀ x ∈ n.prep s, (executeWithRetry n s x).result = .ok (okv x))
    (pid : Nat) :
    completeVal (pipelineResult n s (n.prep s)) (.complete pid) =
      ((n.prep s)[pid]?).map okv := by
  cases hit : (n.prep s)[pid]? with
  | none => simp [completeVal, pipelineResult, hit]
  | some x =>
    have hx := hok x (List.getElem?_mem hit)
    simp [completeVal, pipelineResult, hit, hx]

/-- When every pipeline's retry wrapper resolves, the cycle reaches `post`:
no error propagates, the arrays passed to `post` are permutations of the
produced items (resp. of their exec values), and the `post` invocation comes
after the whole schedule. -/
theorem runCycle_ok_spec (n : NodeSpec σ α β ε) (s : σ) (sched : List CycleEv)
    (okv : α → β)
    (hval : isValidSchedule (n.prep s).length sched = true)
    (hok : ∀ x ∈ n.prep s, (executeWithRetry n s x).result = .ok (okv x)) :
    (runCycle n s sched).prepItems = sched.filterMap (arriveVal (n.prep s)) ∧
    (runCycle n s sched).execResults =
      sched.filterMap (completeVal (pipelineResult n s (n.prep s))) ∧
    (runCycle n s sched).prepItems.Perm (n.prep s) ∧
    (runCycle n s sched).execResults.Perm ((n.prep s).map okv) ∧
    (runCycle n s sched).result =
      .ok (n.post s (runCycle n s sched).prepItems
        (runCycle n s sched).execResults) ∧
    (runCycle n s sched).events = sched ++ [.postInvoke] := by
  have hce : cycleError (pipelineResult n s (n.prep s)) sched = none :=
    cycleError_none _ _ (fun pid _ r hr => pipelineResult_ok n s okv hok pid r hr)
  have hcol := collect_eq (n.prep s) (pipelineResult n s (n.prep s)) sched
  have hrc : runCycle n s sched =
      ⟨sched.filterMap (arriveVal (n.prep s)),
        sched.filterMap (completeVal (pipelineResult n s (n.prep s))),
        sched ++ [.postInvoke],
        .ok (n.post s (sched.filterMap (arriveVal (n.prep s)))
          (sched.filterMap (completeVal (pipelineResult n s (n.prep s)))))⟩ := by
    simp only [runCycle]
    rw [hcol, hce]
  have hps : (sched.filterMap (arriveVal (n.prep s))).Perm (n.prep s) := by
    rw [filterMap_arriveVal]
    have hp := (arrivePids_perm _ sched hval).filterMap
      (fun pid => (n.prep s)[pid]?)
    exact hp.trans (by rw [range_filterMap_getElem_id])
  have hes : (sched.filterMap
      (completeVal (pipelineResult n s (n.prep s)))).Perm
      ((n.prep s).map okv) := by
    rw [filterMap_completeVal]
    have hco : (completePids sched).filterMap
        (fun pid => completeVal (pipelineResult n s (n.prep s)) (.complete pid)) =
        (completePids sched).filterMap (fun pid => ((n.prep s)[pid]?).map okv) :=
      List.filterMap_congr (fun pid _ => completeVal_eq n s okv hok pid)
    rw [hco]
    have hp := (completePids_perm _ sched hval).filterMap
      (fun pid => ((n.prep s)[pid]?).map okv)
    exact hp.trans (by rw [range_filterMap_getElem])
  rw [hrc]
  exact ⟨rfl, rfl, hps, hes, rfl, rfl⟩

/-! ### The failure path of one cycle -/

/-- When there is at least one pipeline and every pipeline's retry wrapper
rejects, the cycle rejects with one of those errors and `post` is never
invoked (no `postInvoke` event; the result is the propagated error). -/
theorem runCycle_err_spec (n : NodeSpec σ α β ε) (s : σ) (sched : List CycleEv)
    (errOf : α → Thrown ε)
    (hval : isValidSchedule (n.prep s).length sched = true)
    (hne : n.prep s ≠ [])
    (herr : ∀ x ∈ n.prep s,
      (executeWithRetry n s x).result = .error (errOf x)) :
    ∃ x ∈ n.prep s,
      (runCycle n s sched).result = .error (errOf x) ∧
      (runCycle n s sched).events = sched := by
  have hN : 0 < (n.prep s).length := List.length_pos.mpr hne
  have hmem : CycleEv.complete 0 ∈ sched := by
    have hc := (valid_counts _ sched hval 0 hN).2
    exact List.count_pos_iff.mp (by omega)
  have herr2 : ∀ pid, CycleEv.complete pid ∈ sched →
      ∃ r e, pipelineResult n s (n.prep s) pid = some r ∧
        r.result = .error e := by
    intro pid hpid
    have hlt : pid < (n.prep s).length := by
      have hok := valid_pid_lt _ sched hval _ hpid
      simpa [schedPidOk] using hok
    have hit : (n.prep s)[pid]? = some ((n.prep s)[pid]) :=
      List.getElem?_eq_getElem hlt
    refine ⟨executeWithRetry n s ((n.prep s)[pid]),
      errOf ((n.prep s)[pid]), ?_, ?_⟩
    · rw [pipelineResult, hit, Option.map_some']
    · exact herr _ (List.getElem?_mem hit)
  obtain ⟨pid, r, e, hpid, hres, he, hce⟩ :=
    cycleError_some (pipelineResult n s (n.prep s)) sched ⟨0, hmem⟩ herr2
  have hlt : pid < (n.prep s).length := by
    have hok := valid_pid_lt _ sched hval _ hpid
    simpa [schedPidOk] using hok
  have hit : (n.prep s)[pid]? = some ((n.prep s)[pid]) :=
    List.getElem?_eq_getElem hlt
  have hr : r = executeWithRetry n s ((n.prep s)[pid]) := by
    rw [pipelineResult, hit, Option.map_some'] at hres
    exact (Option.some.injEq _ _ ▸ hres.symm :)
  have hee : e = errOf ((n.prep s)[pid]) := by
    have h1 := herr _ (List.getElem?_mem hit)
    rw [← hr, he] at h1
    exact (Except.error.injEq _ _ ▸ h1 :)
  refine ⟨(n.prep s)[pid], List.getElem?_mem hit, ?_, ?_⟩
  · have hrc : (runCycle n s sched).result = .error e := by
      simp only [runCycle]
      rw [hce]
    rw [hrc, hee]
  · simp only [runCycle]
    rw [hce]

/-! ### Edge-table lemmas -/

theorem edgesGet_edgesSet (es : List (JsAction × Nat)) (k : JsAction) (t : Nat) :
    edgesGet (edgesSet es k t) k = some t := by
  induction es with
  | nil => simp [edgesSet, edgesGet]
  | cons p rest ih =>
    obtain ⟨k0, t0⟩ := p
    by_cases h : k0 = k
    · simp [edgesSet, h, edgesGet]
    · simp [edgesSet, h, edgesGet, ih]

/-! ### Claim theorems -/

/-- C1 — the claim FAILS on the code.  At a schedule the event loop realizes
(both items plain, so they arrive in production order 0, 1; item 1's exec
finishes first), `prepItems` is `[0, 1]` but `execResults` is
`[exec 1, exec 0] = [11, 10]`: the processed result at index 0 is not the
result of the produced item at index 0.  The code pushes onto `prepItems` when
an item arrives and onto `execResults` when its exec completes, so the two
arrays end up in different orders whenever exec completion order differs from
arrival order — contradicting the claim (and the repository's own
documentation, which even promises production order). -/
theorem run_alignment_violated :
    isValidSchedule 2 schedA = true ∧
    (run graphA 1 0 () [schedA]).2 =
      [.enter 0, .postEv 0 [0, 1] [11, 10]] ∧
    (runCycle nodeA () schedA).prepItems = [0, 1] ∧
    (runCycle nodeA () schedA).execResults = [11, 10] ∧
    (runCycle nodeA () schedA).prepItems.length =
      (runCycle nodeA () schedA).execResults.length ∧
    ¬((runCycle nodeA () schedA).execResults[0]? =
        ((runCycle nodeA () schedA).prepItems[0]?).map (fun x => x + 10)) := by
  decide

/-- C2: if exec fails exactly `k` times and then succeeds, with
`k < maxRetries`, `executeWithRetry` returns the success value after exactly
`k + 1` exec attempts (none after the success), and `onError` is invoked
exactly `k` times — at attempts `1, …, k`, once before each of the `k` retry
sleeps — and the fallback is not used. -/
theorem executeWithRetry_k_failures_then_success
    (n : NodeSpec σ α β ε) (s : σ) (item : α) (k : Nat) (v : β)
    (errs : Nat → ε)
    (hk : k < n.maxRetries)
    (hfail : ∀ i, i < k → n.exec s item i = .error (errs i))
    (hsucc : n.exec s item k = .ok v) :
    executeWithRetry n s item =
      ⟨.ok v, (List.range k).map (fun i => (errs i, i + 1, n.maxRetries)),
        k + 1, false, List.replicate k (max n.retryDelay 0)⟩ := by
  rw [executeWithRetry]
  have h := retryLoop_success n.maxRetries n.retryDelay (n.exec s item)
    (n.execFallback.map fun f => f s item) errs v k 0 n.maxRetries hk
    (fun i hi => by simpa using hfail i hi) (by simpa using hsucc)
  simpa using h

/-- Witness for C2 on `nodeB` (fails twice, then succeeds with 42). -/
theorem executeWithRetry_k_failures_then_success_witness :
    executeWithRetry nodeB () () =
      ⟨.ok 42, (List.range 2).map (fun i => (i, i + 1, nodeB.maxRetries)),
        3, false, List.replicate 2 (max nodeB.retryDelay 0)⟩ :=
  executeWithRetry_k_failures_then_success nodeB () () 2 42 (fun i => i)
    (by decide) (by decide) (by decide)

/-- C8: with `maxRetries ≥ 1` the trailing `throw new Error('Unreachable')`
is never reached: exec is attempted between 1 and `maxRetries` times and the
call either returns a value some exec attempt produced, or — when the final
attempt failed — returns the fallback applied to that final error, or
re-throws that final error when no fallback is defined. -/
theorem executeWithRetry_no_unreachable
    (n : NodeSpec σ α β ε) (s : σ) (item : α)
    (hmr : 1 ≤ n.maxRetries) :
    1 ≤ (executeWithRetry n s item).execAttempts ∧
    (executeWithRetry n s item).execAttempts ≤ n.maxRetries ∧
    (executeWithRetry n s item).result ≠ .error .unreachable ∧
    ((∃ i v, i < n.maxRetries ∧ n.exec s item i = .ok v ∧
        (executeWithRetry n s item).result = .ok v) ∨
      (∃ e, n.exec s item (n.maxRetries - 1) = .error e ∧
        ((n.execFallback = none ∧
            (executeWithRetry n s item).result = .error (.fromExec e)) ∨
          (∃ f, n.execFallback = some f ∧
            (executeWithRetry n s item).result =
              (f s item e).mapError Thrown.fromExec)))) := by
  rw [executeWithRetry]
  obtain ⟨h1, h2, h3, h4⟩ := retryLoop_shape n.maxRetries n.retryDelay
    (n.exec s item) (n.execFallback.map fun f => f s item) n.maxRetries 0
    (by omega)
  refine ⟨h1, h2, h3, ?_⟩
  rcases h4 with ⟨i, v, hi1, hi2, hexi, hres⟩ | ⟨e, hexl, hrest⟩
  · exact Or.inl ⟨i, v, Nat.zero_add n.maxRetries ▸ hi2, hexi, hres⟩
  · refine .inr ⟨e, by simpa using hexl, ?_⟩
    rcases hrest with ⟨hfb, hres⟩ | ⟨f0, hfb, hres⟩
    · exact .inl ⟨Option.map_eq_none'.mp hfb, hres⟩
    · obtain ⟨f, hf, hf0⟩ := Option.map_eq_some'.mp hfb
      exact .inr ⟨f, hf, by rw [← hf0] at hres; exact hres⟩

/-- Witness for C8 on `nodeB`. -/
theorem executeWithRetry_no_unreachable_witness :
    1 ≤ (executeWithRetry nodeB () ()).execAttempts ∧
    (executeWithRetry nodeB () ()).execAttempts ≤ nodeB.maxRetries ∧
    (executeWithRetry nodeB () ()).result ≠ .error .unreachable ∧
    ((∃ i v, i < nodeB.maxRetries ∧ nodeB.exec () () i = .ok v ∧
        (executeWithRetry nodeB () ()).result = .ok v) ∨
      (∃ e, nodeB.exec () () (nodeB.maxRetries - 1) = .error e ∧
        ((nodeB.execFallback = none ∧
            (executeWithRetry nodeB () ()).result = .error (.fromExec e)) ∨
          (∃ f, nodeB.execFallback = some f ∧
            (executeWithRetry nodeB () ()).result =
              (f () () e).mapError Thrown.fromExec)))) :=
  executeWithRetry_no_unreachable nodeB () () (by decide)

/-- C10: the one-argument `connect(target)` stores the target under the
string key `'default'`, exactly as `connect('default', target)` does; post
returning the string `'default'` therefore resolves that edge; and the two
forms overwrite each other's entry. -/
theorem connect_single_arg_eq_default
    (n : NodeSpec σ α β ε) (t t1 t2 : Nat) :
    n.connect1 t = n.connect2 (.str "default") t ∧
    (n.connect1 t).getEdge (.str "default") = some t ∧
    resolveNext (n.connect1 t) (.str "default") = some t ∧
    ((n.connect2 (.str "default") t1).connect1 t2).getEdge (.str "default") =
      some t2 ∧
    ((n.connect1 t1).connect2 (.str "default") t2).getEdge (.str "default") =
      some t2 := by
  refine ⟨rfl, ?_, ?_, ?_, ?_⟩
  · exact edgesGet_edgesSet n.edges (.str "default") t
  · rw [resolveNext, routeKey]
    rw [show (NodeSpec.connect1 n t).getEdge (.str "default") = some t from
      edgesGet_edgesSet n.edges (.str "default") t]
  · exact edgesGet_edgesSet _ (.str "default") t2
  · exact edgesGet_edgesSet _ (.str "default") t2

/-! ### One-step unfoldings of the driver -/

/-- Unfolding of `run` when the cycle rejects. -/
theorem run_succ_err (g : Graph σ α β ε) (fuel nid : Nat) (s : σ)
    (scheds : List (List CycleEv)) (e : Thrown ε)
    (hres : (runCycle (g.nodes nid) s (scheds.headD [])).result = .error e) :
    run g (fuel + 1) nid s scheds = (.error (.thrown e), [.enter nid]) := by
  simp only [run]
  rw [hres]

/-- Unfolding of `run` when the cycle reaches `post`. -/
theorem run_succ_ok (g : Graph σ α β ε) (fuel nid : Nat) (s : σ)
    (scheds : List (List CycleEv)) (a2 : JsAction) (s2 : σ)
    (hres : (runCycle (g.nodes nid) s (scheds.headD [])).result = .ok (a2, s2)) :
    run g (fuel + 1) nid s scheds =
      (if a2 = .kill then
        (.ok (), [.enter nid,
          .postEv nid (runCycle (g.nodes nid) s (scheds.headD [])).prepItems
            (runCycle (g.nodes nid) s (scheds.headD [])).execResults])
      else
        match resolveNext (g.nodes nid) a2 with
        | some nid2 =>
          ((run g fuel nid2 s2 scheds.tail).1,
            .enter nid ::
              .postEv nid (runCycle (g.nodes nid) s (scheds.headD [])).prepItems
                (runCycle (g.nodes nid) s (scheds.headD [])).execResults ::
                (run g fuel nid2 s2 scheds.tail).2)
        | none =>
          (.ok (), [.enter nid,
            .postEv nid (runCycle (g.nodes nid) s (scheds.headD [])).prepItems
              (runCycle (g.nodes nid) s (scheds.headD [])).execResults])) := by
  simp only [run]
  rw [hres]
  rfl

/-- C3: when exec fails at every attempt of every produced item and no
fallback is defined, `run` rejects with the final-attempt failure of one of
the items, `post` is not invoked for the cycle, and no subsequent node is
entered: the trace is exactly `[enter nid]`. -/
theorem run_allFail_noFallback_aborts
    (g : Graph σ α β ε) (fuel nid : Nat) (s : σ) (scheds : List (List CycleEv))
    (errF : α → Nat → ε)
    (hval : isValidSchedule ((g.nodes nid).prep s).length
      (scheds.headD []) = true)
    (hmr : 1 ≤ (g.nodes nid).maxRetries)
    (hne : (g.nodes nid).prep s ≠ [])
    (hfail : ∀ x ∈ (g.nodes nid).prep s, ∀ i,
      (g.nodes nid).exec s x i = .error (errF x i))
    (hnofb : (g.nodes nid).execFallback = none) :
    ∃ x ∈ (g.nodes nid).prep s,
      run g (fuel + 1) nid s scheds =
        (.error (.thrown (.fromExec (errF x ((g.nodes nid).maxRetries - 1)))),
          [.enter nid]) := by
  have herr : ∀ x ∈ (g.nodes nid).prep s,
      (executeWithRetry (g.nodes nid) s x).result =
        .error (.fromExec (errF x ((g.nodes nid).maxRetries - 1))) := by
    intro x hx
    rw [executeWithRetry, hnofb, Option.map_none']
    rw [retryLoop_allFail (g.nodes nid).maxRetries (g.nodes nid).retryDelay
      ((g.nodes nid).exec s x) none (fun i => errF x i)
      (g.nodes nid).maxRetries 0 (by omega)
      (fun i hi1 hi2 => hfail x hx i)]
    simp
  obtain ⟨x, hx, hres, hev⟩ := runCycle_err_spec (g.nodes nid) s
    (scheds.headD [])
    (fun x => .fromExec (errF x ((g.nodes nid).maxRetries - 1))) hval hne herr
  exact ⟨x, hx, run_succ_err g fuel nid s scheds _ hres⟩

/-- Witness for C3 on `graphC` (single item 0, every attempt fails). -/
theorem run_allFail_noFallback_aborts_witness :
    ∃ x ∈ (graphC.nodes 0).prep (),
      run graphC 1 0 () [[.arrive 0, .complete 0]] =
        (.error (.thrown (.fromExec (x + 2))), [.enter 0]) :=
  run_allFail_noFallback_aborts graphC 0 0 () [[.arrive 0, .complete 0]]
    (fun x i => x + i) (by decide) (by decide) (by decide)
    (fun x hx i => rfl) rfl

/-- C4: when exec fails at every attempt but a fallback is defined and
succeeds, each item's processed result is the fallback value (after exactly
`maxRetries` exec attempts — none after the fallback), the cycle completes
through `post` (whose results array is a permutation of the fallback values),
and the traversal is not aborted: the trace continues past the `post`
invocation instead of stopping at an error. -/
theorem run_allFail_fallback_degrades
    (g : Graph σ α β ε) (fuel nid : Nat) (s : σ) (scheds : List (List CycleEv))
    (errF : α → Nat → ε) (fb : σ → α → ε → Except ε β) (fbv : α → β)
    (hval : isValidSchedule ((g.nodes nid).prep s).length
      (scheds.headD []) = true)
    (hmr : 1 ≤ (g.nodes nid).maxRetries)
    (hfail : ∀ x ∈ (g.nodes nid).prep s, ∀ i,
      (g.nodes nid).exec s x i = .error (errF x i))
    (hfb : (g.nodes nid).execFallback = some fb)
    (hfbok : ∀ x ∈ (g.nodes nid).prep s,
      fb s x (errF x ((g.nodes nid).maxRetries - 1)) = .ok (fbv x)) :
    (∀ x ∈ (g.nodes nid).prep s,
      (executeWithRetry (g.nodes nid) s x).result = .ok (fbv x) ∧
      (executeWithRetry (g.nodes nid) s x).execAttempts =
        (g.nodes nid).maxRetries ∧
      (executeWithRetry (g.nodes nid) s x).usedFallback = true) ∧
    ∃ ps es tail,
      (run g (fuel + 1) nid s scheds).2 =
        .enter nid :: .postEv nid ps es :: tail ∧
      ps.Perm ((g.nodes nid).prep s) ∧
      es.Perm (((g.nodes nid).prep s).map fbv) := by
  have hretry : ∀ x ∈ (g.nodes nid).prep s,
      (executeWithRetry (g.nodes nid) s x).result = .ok (fbv x) ∧
      (executeWithRetry (g.nodes nid) s x).execAttempts =
        (g.nodes nid).maxRetries ∧
      (executeWithRetry (g.nodes nid) s x).usedFallback = true := by
    intro x hx
    rw [executeWithRetry, hfb, Option.map_some']
    rw [retryLoop_allFail (g.nodes nid).maxRetries (g.nodes nid).retryDelay
      ((g.nodes nid).exec s x) (some (fb s x)) (fun i => errF x i)
      (g.nodes nid).maxRetries 0 (by omega)
      (fun i hi1 hi2 => hfail x hx i)]
    refine ⟨?_, rfl, rfl⟩
    have h1 := hfbok x hx
    simp only [Nat.zero_add]
    rw [h1]
    rfl
  have hok : ∀ x ∈ (g.nodes nid).prep s,
      (executeWithRetry (g.nodes nid) s x).result = .ok (fbv x) :=
    fun x hx => (hretry x hx).1
  obtain ⟨hpseq, hesq, hps, hes, hres, hev⟩ :=
    runCycle_ok_spec (g.nodes nid) s (scheds.headD []) fbv hval hok
  refine ⟨hretry, ?_⟩
  obtain ⟨a2, s2, hpost⟩ :
      ∃ a2 s2, (g.nodes nid).post s
        (runCycle (g.nodes nid) s (scheds.headD [])).prepItems
        (runCycle (g.nodes nid) s (scheds.headD [])).execResults = (a2, s2) :=
    ⟨_, _, rfl⟩
  rw [run_succ_ok g fuel nid s scheds a2 s2 (by rw [hres, hpost])]
  by_cases hk : a2 = .kill
  · rw [if_pos hk]
    exact ⟨_, _, [], rfl, hps, hes⟩
  · rw [if_neg hk]
    cases hnx : resolveNext (g.nodes nid) a2 with
    | some nid2 => exact ⟨_, _, _, rfl, hps, hes⟩
    | none => exact ⟨_, _, [], rfl, hps, hes⟩

/-- Witness for C4 on `graphD` (single item 3, every attempt fails, fallback
degrades to 6). -/
theorem run_allFail_fallback_degrades_witness :
    (∀ x ∈ (graphD.nodes 0).prep (),
      (executeWithRetry (graphD.nodes 0) () x).result = .ok (x * 2) ∧
      (executeWithRetry (graphD.nodes 0) () x).execAttempts =
        (graphD.nodes 0).maxRetries ∧
      (executeWithRetry (graphD.nodes 0) () x).usedFallback = true) ∧
    ∃ ps es tail,
      (run graphD 1 0 () [[.arrive 0, .complete 0]]).2 =
        .enter 0 :: .postEv 0 ps es :: tail ∧
      ps.Perm ((graphD.nodes 0).prep ()) ∧
      es.Perm (((graphD.nodes 0).prep ()).map (fun x => x * 2)) :=
  run_allFail_fallback_degrades graphD 0 0 () [[.arrive 0, .complete 0]]
    (fun _ i => i) (fun _ x _ => .ok (x * 2)) (fun x => x * 2)
    (by decide) (by decide) (fun x hx i => rfl) rfl (fun x hx => rfl)

/-- C5: routing after `post` returns.  The KILL sentinel ends the traversal
immediately regardless of any configured edges; `undefined`/`null` route via
the `'default'` edge; a named string action routes via its matching edge,
falling back to the `'default'` edge when none is registered for it; and when
no target resolves at all, the traversal ends successfully. -/
theorem run_routing_after_post
    (g : Graph σ α β ε) (fuel nid : Nat) (s s2 : σ)
    (scheds : List (List CycleEv)) (a : JsAction)
    (hc : (runCycle (g.nodes nid) s (scheds.headD [])).result = .ok (a, s2)) :
    (a = .kill →
      run g (fuel + 1) nid s scheds =
        (.ok (), [.enter nid,
          .postEv nid (runCycle (g.nodes nid) s (scheds.headD [])).prepItems
            (runCycle (g.nodes nid) s (scheds.headD [])).execResults])) ∧
    ((a = .undef ∨ a = .jsNull) →
      resolveNext (g.nodes nid) a = (g.nodes nid).getEdge (.str "default")) ∧
    (∀ t, a = .str t →
      resolveNext (g.nodes nid) a =
        match (g.nodes nid).getEdge (.str t) with
        | some nid2 => some nid2
        | none => (g.nodes nid).getEdge (.str "default")) ∧
    (a ≠ .kill → resolveNext (g.nodes nid) a = none →
      run g (fuel + 1) nid s scheds =
        (.ok (), [.enter nid,
          .postEv nid (runCycle (g.nodes nid) s (scheds.headD [])).prepItems
            (runCycle (g.nodes nid) s (scheds.headD [])).execResults])) ∧
    (∀ nid2, a ≠ .kill → resolveNext (g.nodes nid) a = some nid2 →
      run g (fuel + 1) nid s scheds =
        ((run g fuel nid2 s2 scheds.tail).1,
          .enter nid ::
            .postEv nid (runCycle (g.nodes nid) s (scheds.headD [])).prepItems
              (runCycle (g.nodes nid) s (scheds.headD [])).execResults ::
              (run g fuel nid2 s2 scheds.tail).2)) := by
  refine ⟨?_, ?_, ?_, ?_, ?_⟩
  · intro hk
    rw [run_succ_ok g fuel nid s scheds a s2 hc, if_pos hk]
  · rintro (rfl | rfl) <;>
      cases h : (g.nodes nid).getEdge (.str "default") <;>
        simp [resolveNext, routeKey, h]
  · intro t ht
    subst ht
    rfl
  · intro hk hnone
    rw [run_succ_ok g fuel nid s scheds a s2 hc, if_neg hk, hnone]
  · intro nid2 hk hsome
    rw [run_succ_ok g fuel nid s scheds a s2 hc, if_neg hk, hsome]

/-- Witness for C5 on `graphE` (empty produce, post routes via "go"). -/
theorem run_routing_after_post_witness :
    ((JsAction.str "go") = .kill →
      run graphE 1 0 () [] =
        (.ok (), [.enter 0,
          .postEv 0 (runCycle (graphE.nodes 0) () (([] : List (List CycleEv)).headD [])).prepItems
            (runCycle (graphE.nodes 0) () (([] : List (List CycleEv)).headD [])).execResults])) ∧
    (((JsAction.str "go") = .undef ∨ (JsAction.str "go") = .jsNull) →
      resolveNext (graphE.nodes 0) (.str "go") =
        (graphE.nodes 0).getEdge (.str "default")) ∧
    (∀ t, (JsAction.str "go") = .str t →
      resolveNext (graphE.nodes 0) (.str "go") =
        match (graphE.nodes 0).getEdge (.str t) with
        | some nid2 => some nid2
        | none => (graphE.nodes 0).getEdge (.str "default")) ∧
    ((JsAction.str "go") ≠ .kill →
      resolveNext (graphE.nodes 0) (.str "go") = none →
      run graphE 1 0 () [] =
        (.ok (), [.enter 0,
          .postEv 0 (runCycle (graphE.nodes 0) () (([] : List (List CycleEv)).headD [])).prepItems
            (runCycle (graphE.nodes 0) () (([] : List (List CycleEv)).headD [])).execResults])) ∧
    (∀ nid2, (JsAction.str "go") ≠ .kill →
      resolveNext (graphE.nodes 0) (.str "go") = some nid2 →
      run graphE 1 0 () [] =
        ((run graphE 0 nid2 () (([] : List (List CycleEv)).tail)).1,
          .enter 0 ::
            .postEv 0 (runCycle (graphE.nodes 0) () (([] : List (List CycleEv)).headD [])).prepItems
              (runCycle (graphE.nodes 0) () (([] : List (List CycleEv)).headD [])).execResults ::
              (run graphE 0 nid2 () (([] : List (List CycleEv)).tail)).2)) :=
  run_routing_after_post graphE 0 0 () () [] (.str "go") (by decide)

/-- C6: within one cycle, when every pipeline's retry wrapper resolves, both
arrays passed to `post` have length exactly N (the number of produced items),
and `post` is invoked only after every `complete` event of the schedule: the
join barrier. -/
theorem runCycle_join_barrier (n : NodeSpec σ α β ε) (s : σ)
    (sched : List CycleEv) (okv : α → β)
    (hval : isValidSchedule (n.prep s).length sched = true)
    (hok : ∀ x ∈ n.prep s, (executeWithRetry n s x).result = .ok (okv x)) :
    (runCycle n s sched).execResults.length = (n.prep s).length ∧
    (runCycle n s sched).prepItems.length = (n.prep s).length ∧
    (runCycle n s sched).result =
      .ok (n.post s (runCycle n s sched).prepItems
        (runCycle n s sched).execResults) ∧
    ∀ pid, pid < (n.prep s).length → ∃ i j : Nat, i < j ∧
      (runCycle n s sched).events[i]? = some (CycleEv.complete pid) ∧
      (runCycle n s sched).events[j]? = some CycleEv.postInvoke := by
  obtain ⟨hpseq, hesq, hps, hes, hres, hev⟩ :=
    runCycle_ok_spec n s sched okv hval hok
  refine ⟨?_, ?_, hres, ?_⟩
  · rw [hes.length_eq, List.length_map]
  · exact hps.length_eq
  · intro pid hpid
    have hmem : CycleEv.complete pid ∈ sched := by
      have hc := (valid_counts _ sched hval pid hpid).2
      exact List.count_pos_iff.mp (by omega)
    obtain ⟨i, hi, hsi⟩ := List.getElem_of_mem hmem
    refine ⟨i, sched.length, hi, ?_, ?_⟩
    · rw [hev, List.getElem?_append, if_pos hi, List.getElem?_eq_getElem hi,
        hsi]
    · rw [hev, List.getElem?_concat_length]

/-- Witness for C6 on `nodeF` with an out-of-order completion schedule. -/
theorem runCycle_join_barrier_witness :
    (runCycle nodeF () schedA).execResults.length =
      ((nodeF.prep ()).length) ∧
    (runCycle nodeF () schedA).prepItems.length = ((nodeF.prep ()).length) ∧
    (runCycle nodeF () schedA).result =
      .ok (nodeF.post () (runCycle nodeF () schedA).prepItems
        (runCycle nodeF () schedA).execResults) ∧
    ∀ pid, pid < (nodeF.prep ()).length → ∃ i j : Nat, i < j ∧
      (runCycle nodeF () schedA).events[i]? = some (CycleEv.complete pid) ∧
      (runCycle nodeF () schedA).events[j]? = some CycleEv.postInvoke :=
  runCycle_join_barrier nodeF () schedA (fun x => x + 1) (by decide) (by decide)

/-- C7: the configured `timeout` value never influences behaviour — neither
the retry wrapper's outcome (result, attempt count, `onError` calls, sleeps)
nor any part of a traversal (outcome and full trace) changes when every
node's `timeout` is replaced arbitrarily. -/
theorem timeout_never_influences
    (g : Graph σ α β ε) (f : Nat → Nat) (fuel nid : Nat) (s : σ)
    (scheds : List (List CycleEv))
    (n : NodeSpec σ α β ε) (t : Nat) (s0 : σ) (item : α) :
    executeWithRetry (n.withTimeout t) s0 item = executeWithRetry n s0 item ∧
    run (g.withTimeouts f) fuel nid s scheds = run g fuel nid s scheds := by
  refine ⟨rfl, ?_⟩
  induction fuel generalizing nid s scheds with
  | zero => rfl
  | succ fuel ih =>
    simp only [run]
    have hn : runCycle ((g.withTimeouts f).nodes nid) s (scheds.headD []) =
        runCycle (g.nodes nid) s (scheds.headD []) := rfl
    have hrn : resolveNext ((g.withTimeouts f).nodes nid) =
        resolveNext (g.nodes nid) := rfl
    rw [hn, hrn]
    simp only [ih]

/-- C9: a cycle whose produce step yields no items still invokes `post` with
two empty arrays (no exec pipeline is launched: the event trace is just the
`post` invocation), the cycle is not an error, and its returned action is
routed exactly as in any other cycle — including recursing into a resolved
next node. -/
theorem run_empty_prep
    (g : Graph σ α β ε) (fuel nid : Nat) (s : σ) (scheds : List (List CycleEv))
    (hprep : (g.nodes nid).prep s = [])
    (hval : isValidSchedule ((g.nodes nid).prep s).length
      (scheds.headD []) = true) :
    (runCycle (g.nodes nid) s (scheds.headD [])).prepItems = [] ∧
    (runCycle (g.nodes nid) s (scheds.headD [])).execResults = [] ∧
    (runCycle (g.nodes nid) s (scheds.headD [])).result =
      .ok ((g.nodes nid).post s [] []) ∧
    (runCycle (g.nodes nid) s (scheds.headD [])).events = [.postInvoke] ∧
    ∀ a2 s2, (g.nodes nid).post s [] [] = (a2, s2) →
      (a2 = .kill →
        run g (fuel + 1) nid s scheds =
          (.ok (), [.enter nid, .postEv nid [] []])) ∧
      (a2 ≠ .kill → resolveNext (g.nodes nid) a2 = none →
        run g (fuel + 1) nid s scheds =
          (.ok (), [.enter nid, .postEv nid [] []])) ∧
      (∀ nid2, a2 ≠ .kill → resolveNext (g.nodes nid) a2 = some nid2 →
        run g (fuel + 1) nid s scheds =
          ((run g fuel nid2 s2 scheds.tail).1,
            .enter nid :: .postEv nid [] [] ::
              (run g fuel nid2 s2 scheds.tail).2)) := by
  have hsched : scheds.headD [] = [] := by
    rw [hprep] at hval
    rcases hcase : scheds.headD [] with _ | ⟨ev, tr⟩
    · rfl
    · exfalso
      rw [hcase, isValidSchedule, Bool.and_eq_true, List.all_eq_true] at hval
      have h := hval.1 ev (List.mem_cons_self _ _)
      cases ev <;> simp [schedPidOk] at h
  have hrc : runCycle (g.nodes nid) s (scheds.headD []) =
      ⟨[], [], [.postInvoke], .ok ((g.nodes nid).post s [] [])⟩ := by
    rw [hsched]
    rfl
  refine ⟨by rw [hrc], by rw [hrc], by rw [hrc], by rw [hrc], ?_⟩
  intro a2 s2 hpost
  have hres : (runCycle (g.nodes nid) s (scheds.headD [])).result =
      .ok (a2, s2) := by
    rw [hrc, hpost]
  refine ⟨?_, ?_, ?_⟩
  · intro hk
    rw [run_succ_ok g fuel nid s scheds a2 s2 hres, if_pos hk, hrc]
  · intro hk hnone
    rw [run_succ_ok g fuel nid s scheds a2 s2 hres, if_neg hk, hnone, hrc]
  · intro nid2 hk hsome
    rw [run_succ_ok g fuel nid s scheds a2 s2 hres, if_neg hk, hsome, hrc]

/-- Witness for C9 on `graphG` (empty produce, default edge to node 1). -/
theorem run_empty_prep_witness :
    (runCycle (graphG.nodes 0) () (([[]] : List (List CycleEv)).headD [])).prepItems = [] ∧
    (runCycle (graphG.nodes 0) () (([[]] : List (List CycleEv)).headD [])).execResults = [] ∧
    (runCycle (graphG.nodes 0) () (([[]] : List (List CycleEv)).headD [])).result =
      .ok ((graphG.nodes 0).post () [] []) ∧
    (runCycle (graphG.nodes 0) () (([[]] : List (List CycleEv)).headD [])).events =
      [.postInvoke] ∧
    ∀ a2 s2, (graphG.nodes 0).post () [] [] = (a2, s2) →
      (a2 = .kill →
        run graphG 2 0 () [[]] =
          (.ok (), [.enter 0, .postEv 0 [] []])) ∧
      (a2 ≠ .kill → resolveNext (graphG.nodes 0) a2 = none →
        run graphG 2 0 () [[]] =
          (.ok (), [.enter 0, .postEv 0 [] []])) ∧
      (∀ nid2, a2 ≠ .kill → resolveNext (graphG.nodes 0) a2 = some nid2 →
        run graphG 2 0 () [[]] =
          ((run graphG 1 nid2 () (([[]] : List (List CycleEv)).tail)).1,
            .enter 0 :: .postEv 0 [] [] ::
              (run graphG 1 nid2 () (([[]] : List (List CycleEv)).tail)).2)) :=
  run_empty_prep graphG 1 0 () [[]] rfl (by decide)

end Pinflow
